import Mathlib

set_option linter.unusedVariables false

/-!
Shallow embedding of the shadow-traffic routing node from
mcrouter/routes/ShadowRoute.h (class ShadowRoute: shouldShadow, route,
traverse, dispatchShadowRequest), together with theorems checking the
natural-language specification against it.

Modelling conventions:
* Route handles are identifiers (Nat); an environment env : Nat -> Req -> r
  gives each handle its route behaviour (RouteHandleIf::route).  A nullable
  handle (std::shared_ptr that may be null) is an Option Nat.
* The uint32 routing key hash is a Nat; the routing key bytes are a String.
* Side effects of route are recorded in an event trace: failure reports
  (MC_LOG_FAILURE), calls of makeAdjustedNormalRequest, calls of
  normalRoute.route, and hand-offs to dispatchShadowRequest.  The dispatch
  event records the destination handle, the shadow request passed, and the
  reply from which makePostShadowReplyFn was built (none models the nullptr
  folly::Function passed when no primary reply is available).
-/

/-- A request as seen by ShadowRoute: the routing key hash (uint32 in the
source), the routing key (a byte string, folly::StringPiece in the source),
and the rest of the request body (payload), which policies may transform. -/
structure Req where
  routingKeyHash : Nat
  routingKey : List Nat
  payload : Nat
deriving DecidableEq

/-- ShadowSettings snapshot: an explicit sorted list of (hash, key) pairs to
shadow, or a closed hash range used when the list is empty. -/
structure ShadowSettings where
  keysToShadow : List (Nat × List Nat)
  keyRange : Nat × Nat
deriving DecidableEq

/-- The shadow policy capability set (template parameter ShadowPolicy in the
source).  shouldDelayShadow depends only on the request type in the source,
hence it is a constant of the policy here.  makePostShadowReplyFn is modelled
through the dispatch trace event, which records the reply it was built from. -/
structure ShadowPolicy (ρ : Type) where
  makeAdjustedNormalRequest : Req → Req
  shouldDelayShadow : Bool
  makeShadowRequest : Req → Req

/-- The ShadowRoute node: primary handle normal_, the ordered
(destination handle, settings handle) collection shadowData_, and the policy
shadowPolicy_. -/
structure ShadowRoute (ρ : Type) where
  normal : Nat
  shadowData : List (Option Nat × Option ShadowSettings)
  shadowPolicy : ShadowPolicy ρ

/-- Observable events of one route invocation, in program order. -/
inductive Event (ρ : Type) where
  | logFailure : String → Event ρ
  | adjust : Req → Event ρ
  | primaryCall : Req → Event ρ
  | dispatch : Nat → Req → Option ρ → Event ρ
deriving DecidableEq

def isLogFailure {ρ : Type} : Event ρ → Bool
  | Event.logFailure _ => true
  | _ => false

def isAdjust {ρ : Type} : Event ρ → Bool
  | Event.adjust _ => true
  | _ => false

def isPrimaryCall {ρ : Type} : Event ρ → Bool
  | Event.primaryCall _ => true
  | _ => false

def isDispatch {ρ : Type} : Event ρ → Bool
  | Event.dispatch _ _ _ => true
  | _ => false

/-- The failure message logged when a settings handle is null. -/
def kSettingsNullMsg : String := "ShadowRoute: ShadowSettings is nullptr"

/-- The failure message logged when a destination handle is null. -/
def kNullHandleMsg : String :=
  "ShadowRoute: ShadowData has unexpected nullptr route handle"

def isNullHandleLog {ρ : Type} : Event ρ → Bool
  | Event.logFailure m => m == kNullHandleMsg
  | _ => false

def isSettingsNullLog {ρ : Type} : Event ρ → Bool
  | Event.logFailure m => m == kSettingsNullMsg
  | _ => false

/-- Lexicographic byte-string comparison (folly::StringPiece operator less). -/
def bytesLt : List Nat → List Nat → Bool
  | [], [] => false
  | [], _ :: _ => true
  | _ :: _, [] => false
  | a :: as, b :: bs =>
    if a < b then true else if b < a then false else bytesLt as bs

/-- std::less on std::tuple(uint32_t, folly::StringPiece): strict
lexicographic order on (hash, key). -/
def tupLt (a b : Nat × List Nat) : Bool :=
  decide (a.1 < b.1) || (decide (a.1 = b.1) && bytesLt a.2 b.2)

/-- std::lower_bound, halving worker.  The fuel argument is only a structural
termination device: each halving step strictly shrinks the list, so any fuel
of at least the list length never runs out. -/
def lowerBoundGo {α : Type} (lt : α → α → Bool) (v : α) : Nat → List α → Nat
  | 0, _ => 0
  | fuel + 1, l =>
    if h : 0 < l.length then
      if lt (l.get ⟨l.length / 2, Nat.div_lt_self h (by omega)⟩) v then
        l.length / 2 + 1 + lowerBoundGo lt v fuel (l.drop (l.length / 2 + 1))
      else
        lowerBoundGo lt v fuel (l.take (l.length / 2))
    else 0

/-- std::lower_bound: index of the first element not less than v, located by
repeated halving of the range. -/
def lowerBound {α : Type} (lt : α → α → Bool) (v : α) (l : List α) : Nat :=
  lowerBoundGo lt v l.length l

/-- std::binary_search(first, last, v, comp): locate the lower bound, then
report whether it is in range and not greater than v. -/
def binarySearch {α : Type} (lt : α → α → Bool) (v : α) (l : List α) : Bool :=
  if h : lowerBound lt v l < l.length then
    !(lt v (l.get ⟨lowerBound lt v l, h⟩))
  else false

/-- ShadowRoute::shouldShadow.  The Bool is the return value; the String list
records the failure reports it emits (at most one, when the settings handle is
null and the fiber-local shared context - the ctx flag - is available). -/
def shouldShadow (ctx : Bool) (req : Req) (settings : Option ShadowSettings) :
    Bool × List String :=
  match settings with
  | none => (false, if ctx then [kSettingsNullMsg] else [])
  | some s =>
    if !s.keysToShadow.isEmpty then
      (binarySearch tupLt (req.routingKeyHash, req.routingKey) s.keysToShadow, [])
    else
      (decide (s.keyRange.1 ≤ req.routingKeyHash) &&
        decide (req.routingKeyHash ≤ s.keyRange.2), [])

/-- The shadow-entry loop of ShadowRoute::route.  State threaded through the
iteration: adjustedNormalReq (adj) and normalReply (nr).  Returns the final
values of both together with the trace of events the loop emitted. -/
def routeLoop {ρ : Type} (env : Nat → Req → ρ) (nid : Nat)
    (policy : ShadowPolicy ρ) (ctx : Bool) (req : Req) :
    List (Option Nat × Option ShadowSettings) → Option Req → Option ρ →
      Option Req × Option ρ × List (Event ρ)
  | [], adj, nr => (adj, nr, [])
  | entry :: rest, adj, nr =>
    let el := shouldShadow ctx req entry.2
    let logs : List (Event ρ) := el.2.map Event.logFailure
    if el.1 then
      match entry.1 with
      | none =>
        let nullLog : List (Event ρ) :=
          if ctx then [Event.logFailure kNullHandleMsg] else []
        let r := routeLoop env nid policy ctx req rest adj nr
        (r.1, r.2.1, logs ++ nullLog ++ r.2.2)
      | some d =>
        let adjEvents : List (Event ρ) :=
          if adj.isSome then [] else [Event.adjust req]
        let a := adj.getD (policy.makeAdjustedNormalRequest req)
        let pr : Option ρ × List (Event ρ) :=
          if nr.isNone && policy.shouldDelayShadow then
            (some (env nid a), [Event.primaryCall a])
          else (nr, [])
        let dis : Event ρ := Event.dispatch d (policy.makeShadowRequest a) pr.1
        let r := routeLoop env nid policy ctx req rest (some a) pr.1
        (r.1, r.2.1, logs ++ adjEvents ++ pr.2 ++ dis :: r.2.2)
    else
      let r := routeLoop env nid policy ctx req rest adj nr
      (r.1, r.2.1, logs ++ r.2.2)

/-- ShadowRoute::route.  Returns the reply together with the event trace. -/
def route {ρ : Type} (env : Nat → Req → ρ) (node : ShadowRoute ρ) (ctx : Bool)
    (req : Req) : ρ × List (Event ρ) :=
  let r := routeLoop env node.normal node.shadowPolicy ctx req
    node.shadowData none none
  match r.2.1 with
  | some rep => (rep, r.2.2)
  | none =>
    let q := r.1.getD req
    (env node.normal q, r.2.2 ++ [Event.primaryCall q])

/-- An entry fires when it is eligible (shouldShadow true) and its destination
handle is non-null; exactly these entries reach the adjustment, delay and
dispatch steps of the loop. -/
def firedEntry (req : Req) (entry : Option Nat × Option ShadowSettings) : Bool :=
  (shouldShadow true req entry.2).1 && entry.1.isSome

def anyFired {ρ : Type} (node : ShadowRoute ρ) (req : Req) : Bool :=
  node.shadowData.any (firedEntry req)

/-- One visitor invocation of ShadowRoute::traverse: the destination handle
visited, the request passed, and the fiber-local request class in scope
(true when RequestClass::kShadow is set). -/
structure Visit where
  dest : Nat
  req : Req
  shadowTagged : Bool
deriving DecidableEq

/-- fiber_local::runWithLocals: runs f with the shadow request class added to
the fiber-local state and restores the ambient state on return.  The second
component is the ambient request class after the call. -/
def runWithLocals {α : Type} (amb : Bool) (f : Bool → α) : α × Bool :=
  (f true, amb)

/-- The shadow loop of ShadowRoute::traverse: dereferences every destination
handle unconditionally; none models the dereference of a null handle. -/
def traverseShadows (tag : Bool) (req : Req) :
    List (Option Nat × Option ShadowSettings) → Option (List Visit)
  | [] => some []
  | entry :: rest =>
    match entry.1 with
    | none => none
    | some d => (traverseShadows tag req rest).map
        (fun vs => { dest := d, req := req, shadowTagged := tag } :: vs)

/-- ShadowRoute::traverse.  Returns the ordered visitor invocations (none when
a null handle was dereferenced) and the ambient request class after return. -/
def ShadowRoute.traverse {ρ : Type} (node : ShadowRoute ρ) (amb : Bool) (req : Req) :
    Option (List Visit) × Bool :=
  let primary : Visit := { dest := node.normal, req := req, shadowTagged := amb }
  let inner := runWithLocals amb (fun tag => traverseShadows tag req node.shadowData)
  ((inner.1).map (fun vs => primary :: vs), inner.2)

/-- Modelled from the spec: the body of dispatchShadowRequest lives in
ShadowRoute-inl.h, which is not among the sources; spec section 4.3 says it
spawns an independent task that calls shadow route(shadowRequest) and feeds
the reply, if any, to the post-reply observer, discarding the outcome.  A
shadow behaviour b : Nat -> Req -> Option r gives each dispatched task its
outcome (none models failure, timeout, or never completing); the outcomes are
collected here and observed by nobody on the primary path. -/
def shadowOutcomes {ρ : Type} (b : Nat → Req → Option ρ) (trace : List (Event ρ)) :
    List (Option ρ) :=
  trace.filterMap (fun e =>
    match e with
    | Event.dispatch d q _ => some (b d q)
    | _ => none)

/-- Modelled from the spec: the whole system step - route on the primary path
plus the fan-out of the dispatched shadow tasks (spec section 4.3). -/
def routeWithShadows {ρ : Type} (env : Nat → Req → ρ) (b : Nat → Req → Option ρ)
    (node : ShadowRoute ρ) (ctx : Bool) (req : Req) : ρ × List (Option ρ) :=
  let r := route env node ctx req
  (r.1, shadowOutcomes b r.2)

/-! ### Correctness of the binary search used by shouldShadow -/

theorem takeWhile_append_all {α : Type} (p : α → Bool) (l₁ l₂ : List α)
    (h : ∀ x ∈ l₁, p x = true) :
    (l₁ ++ l₂).takeWhile p = l₁ ++ l₂.takeWhile p := by
  induction l₁ with
  | nil => simp
  | cons a t ih =>
    have ha : p a = true := h a (by simp)
    have ht : ∀ x ∈ t, p x = true := fun x hx => h x (by simp [hx])
    simp [List.takeWhile_cons, ha, ih ht]

theorem takeWhile_append_stop {α : Type} (p : α → Bool) (l₁ l₂ : List α) (x : α)
    (hx : p x = false) :
    (l₁ ++ x :: l₂).takeWhile p = l₁.takeWhile p := by
  induction l₁ with
  | nil => simp [List.takeWhile_cons, hx]
  | cons a t ih =>
    by_cases hpa : p a <;> simp [List.takeWhile_cons, hpa, ih]

theorem takeWhile_stop_fail {α : Type} (p : α → Bool) (l : List α)
    (h : (l.takeWhile p).length < l.length) :
    ∃ x, l[(l.takeWhile p).length]? = some x ∧ p x = false := by
  induction l with
  | nil => simp at h
  | cons a t ih =>
    by_cases hpa : p a
    · have ht : (a :: t).takeWhile p = a :: t.takeWhile p := by
        simp [List.takeWhile_cons, hpa]
      rw [ht] at h ⊢
      simp only [List.length_cons, List.getElem?_cons_succ]
      exact ih (by simpa using h)
    · have ht : (a :: t).takeWhile p = [] := by simp [List.takeWhile_cons, hpa]
      rw [ht]
      refine ⟨a, ?_, ?_⟩
      · simp
      · revert hpa; cases p a <;> simp

theorem takeWhile_pre_sat {α : Type} (p : α → Bool) (l : List α) (j : Nat)
    (hj : j < (l.takeWhile p).length) (x : α) (hx : l[j]? = some x) :
    p x = true := by
  induction l generalizing j with
  | nil => simp [List.takeWhile] at hj
  | cons a t ih =>
    by_cases hpa : p a
    · have ht : (a :: t).takeWhile p = a :: t.takeWhile p := by
        simp [List.takeWhile_cons, hpa]
      rw [ht] at hj
      cases j with
      | zero =>
        simp only [List.getElem?_cons_zero, Option.some.injEq] at hx
        rw [← hx]; exact hpa
      | succ j =>
        simp only [List.getElem?_cons_succ] at hx
        exact ih j (by simpa using hj) hx
    · simp [List.takeWhile_cons, hpa] at hj

/-- Cotransitivity of a strict linear comparison, derived from transitivity
and totality. -/
theorem lt_cotrans {α : Type} (lt : α → α → Bool)
    (htr : ∀ a b c, lt a b = true → lt b c = true → lt a c = true)
    (htot : ∀ a b, lt a b = false → lt b a = false → a = b)
    (x v y : α) (hxv : lt x v = true) :
    lt x y = true ∨ lt y v = true := by
  by_cases h1 : lt x y = true
  · exact Or.inl h1
  by_cases h2 : lt y v = true
  · exact Or.inr h2
  exfalso
  have h1f : lt x y = false := by revert h1; cases lt x y <;> simp
  have h2f : lt y v = false := by revert h2; cases lt y v <;> simp
  by_cases h3 : lt y x = true
  · have hyv := htr y x v h3 hxv
    rw [hyv] at h2f
    simp at h2f
  · have h3f : lt y x = false := by revert h3; cases lt y x <;> simp
    have hxy := htot x y h1f h3f
    rw [← hxy] at h2f
    rw [hxv] at h2f
    simp at h2f

/-- On a sorted list, the halving search lands exactly after the prefix of
elements less than v (worker version, by induction on the fuel). -/
theorem lowerBoundGo_eq_takeWhile {α : Type} (lt : α → α → Bool)
    (htr : ∀ a b c, lt a b = true → lt b c = true → lt a c = true)
    (htot : ∀ a b, lt a b = false → lt b a = false → a = b)
    (v : α) :
    ∀ (n : Nat) (l : List α), l.length ≤ n →
      l.Pairwise (fun a b => lt b a = false) →
      lowerBoundGo lt v n l = (l.takeWhile fun x => lt x v).length := by
  intro n
  induction n with
  | zero =>
    intro l hl _
    have : l = [] := List.eq_nil_of_length_eq_zero (Nat.le_zero.mp hl)
    subst this
    simp [lowerBoundGo]
  | succ n ih =>
    intro l hl hs
    by_cases h : 0 < l.length
    · have hmid : l.length / 2 < l.length := Nat.div_lt_self h (by omega)
      rw [lowerBoundGo, dif_pos h]
      split
      · -- the middle element is below v: recurse right
        rename_i hx0
        have hx : lt (l.get ⟨l.length / 2, hmid⟩) v = true := hx0
        have hall : ∀ y ∈ l.take (l.length / 2 + 1), lt y v = true := by
          intro y hy
          obtain ⟨i, hget⟩ := List.mem_iff_get.mp hy
          have hi1 : (i : Nat) < (l.take (l.length / 2 + 1)).length := i.isLt
          have hi2 : (i : Nat) < l.length := by
            simp only [List.length_take] at hi1; omega
          have hval : y = l.get ⟨i, hi2⟩ := by
            rw [← hget]
            simp [List.get_eq_getElem, List.getElem_take]
          have hile : (i : Nat) ≤ l.length / 2 := by
            simp only [List.length_take] at hi1; omega
          rcases Nat.lt_or_ge (i : Nat) (l.length / 2) with hlt | hge
          · have hpair := (List.pairwise_iff_getElem.mp hs) i (l.length / 2) hi2 hmid hlt
            have hxi : lt (l.get ⟨l.length / 2, hmid⟩) (l.get ⟨i, hi2⟩) = false := by
              simpa using hpair
            rcases lt_cotrans lt htr htot (l.get ⟨l.length / 2, hmid⟩) v
                (l.get ⟨i, hi2⟩) hx with hc | hc
            · rw [hxi] at hc
              exact absurd hc (by simp)
            · rw [hval]; exact hc
          · have hieq : (i : Nat) = l.length / 2 := by omega
            rw [hval]
            have : l.get ⟨i, hi2⟩ = l.get ⟨l.length / 2, hmid⟩ := by
              congr 1
              exact Fin.ext hieq
            rw [this]
            exact hx
        have hsplit : l.take (l.length / 2 + 1) ++ l.drop (l.length / 2 + 1) = l :=
          List.take_append_drop _ l
        have htw : l.takeWhile (fun y => lt y v)
            = l.take (l.length / 2 + 1) ++ (l.drop (l.length / 2 + 1)).takeWhile (fun y => lt y v) := by
          conv_lhs => rw [← hsplit]
          exact takeWhile_append_all _ _ _ hall
        have hlen : (l.drop (l.length / 2 + 1)).length ≤ n := by
          simp only [List.length_drop]; omega
        have hsrt : (l.drop (l.length / 2 + 1)).Pairwise (fun a b => lt b a = false) :=
          hs.sublist (List.drop_sublist (l.length / 2 + 1) l)
        rw [htw, List.length_append, List.length_take]
        rw [ih (l.drop (l.length / 2 + 1)) hlen hsrt]
        omega
      · -- the middle element is not below v: recurse left
        rename_i hx0
        have hxf : lt (l.get ⟨l.length / 2, hmid⟩) v = false := by
          have hx1 : ¬ lt (l.get ⟨l.length / 2, hmid⟩) v = true := hx0
          revert hx1
          cases lt (l.get ⟨l.length / 2, hmid⟩) v <;> simp
        have h1 : l.drop (l.length / 2) = l.get ⟨l.length / 2, hmid⟩ :: l.drop (l.length / 2 + 1) := by
          simp only [List.get_eq_getElem]
          exact (List.drop_eq_getElem_cons hmid)
        have hdec : l.take (l.length / 2) ++ l.get ⟨l.length / 2, hmid⟩ :: l.drop (l.length / 2 + 1) = l := by
          rw [← h1]
          exact List.take_append_drop _ l
        have htw : l.takeWhile (fun y => lt y v)
            = (l.take (l.length / 2)).takeWhile (fun y => lt y v) := by
          conv_lhs => rw [← hdec]
          exact takeWhile_append_stop _ _ _ _ hxf
        have hlen : (l.take (l.length / 2)).length ≤ n := by
          simp only [List.length_take]; omega
        have hsrt : (l.take (l.length / 2)).Pairwise (fun a b => lt b a = false) :=
          hs.sublist (List.take_sublist (l.length / 2) l)
        rw [htw]
        exact ih (l.take (l.length / 2)) hlen hsrt
    · have : l = [] := by
        cases l with
        | nil => rfl
        | cons a t => simp at h
      subst this
      simp [lowerBoundGo]

/-- On a sorted list, lowerBound lands exactly after the prefix of elements
less than v. -/
theorem lowerBound_eq_takeWhile {α : Type} (lt : α → α → Bool)
    (htr : ∀ a b c, lt a b = true → lt b c = true → lt a c = true)
    (htot : ∀ a b, lt a b = false → lt b a = false → a = b)
    (v : α) (l : List α)
    (hs : l.Pairwise (fun a b => lt b a = false)) :
    lowerBound lt v l = (l.takeWhile fun x => lt x v).length :=
  lowerBoundGo_eq_takeWhile lt htr htot v l.length l (Nat.le_refl _) hs

theorem bytesLt_trans : ∀ a b c : List Nat,
    bytesLt a b = true → bytesLt b c = true → bytesLt a c = true := by
  intro a
  induction a with
  | nil =>
    intro b c hab hbc
    cases b with
    | nil => simp [bytesLt] at hab
    | cons y ys =>
      cases c with
      | nil => simp [bytesLt] at hbc
      | cons z zs => simp [bytesLt]
  | cons x xs ih =>
    intro b c hab hbc
    cases b with
    | nil => simp [bytesLt] at hab
    | cons y ys =>
      cases c with
      | nil => simp [bytesLt] at hbc
      | cons z zs =>
        simp only [bytesLt] at hab hbc ⊢
        by_cases h1 : x < y
        · by_cases h3 : y < z
          · simp [show x < z by omega]
          · by_cases h4 : z < y
            · simp [h3, h4] at hbc
            · have : y = z := by omega
              subst this
              simp [h1]
        · by_cases h2 : y < x
          · simp [h1, h2] at hab
          · have hxy : x = y := by omega
            subst hxy
            simp only [if_neg h1, if_neg h2] at hab ⊢
            by_cases h3 : x < z
            · simp [h3]
            · by_cases h4 : z < x
              · simp [h3, h4] at hbc
              · simp only [if_neg h3, if_neg h4] at hbc ⊢
                exact ih ys zs hab hbc

theorem bytesLt_total : ∀ a b : List Nat,
    bytesLt a b = false → bytesLt b a = false → a = b := by
  intro a
  induction a with
  | nil =>
    intro b hab _
    cases b with
    | nil => rfl
    | cons y ys => simp [bytesLt] at hab
  | cons x xs ih =>
    intro b hab hba
    cases b with
    | nil => simp [bytesLt] at hba
    | cons y ys =>
      simp only [bytesLt] at hab hba
      by_cases h1 : x < y
      · simp [h1] at hab
      · by_cases h2 : y < x
        · simp [h1, h2] at hba
        · have hxy : x = y := by omega
          subst hxy
          simp only [if_neg h1, if_neg h2] at hab hba
          rw [ih ys hab hba]

theorem bytesLt_irrefl : ∀ a : List Nat, bytesLt a a = false := by
  intro a
  induction a with
  | nil => rfl
  | cons x xs ih => simp [bytesLt, ih]

theorem tupLt_trans : ∀ a b c : Nat × List Nat,
    tupLt a b = true → tupLt b c = true → tupLt a c = true := by
  intro a b c hab hbc
  simp only [tupLt, Bool.or_eq_true, Bool.and_eq_true, decide_eq_true_eq] at hab hbc ⊢
  rcases hab with h1 | ⟨h1, h2⟩ <;> rcases hbc with h3 | ⟨h3, h4⟩
  · exact Or.inl (by omega)
  · exact Or.inl (by omega)
  · exact Or.inl (by omega)
  · exact Or.inr ⟨by omega, bytesLt_trans _ _ _ h2 h4⟩

theorem tupLt_total : ∀ a b : Nat × List Nat,
    tupLt a b = false → tupLt b a = false → a = b := by
  intro a b hab hba
  have hab2 : ¬ tupLt a b = true := by simp [hab]
  have hba2 : ¬ tupLt b a = true := by simp [hba]
  simp only [tupLt, Bool.or_eq_true, Bool.and_eq_true, decide_eq_true_eq,
    not_or, not_and] at hab2 hba2
  obtain ⟨h1, h2⟩ := hab2
  obtain ⟨h3, h4⟩ := hba2
  have he : a.1 = b.1 := by omega
  have h2b : ¬ bytesLt a.2 b.2 = true := h2 he
  have h4b : ¬ bytesLt b.2 a.2 = true := h4 he.symm
  have hb : a.2 = b.2 := by
    apply bytesLt_total
    · revert h2b; cases bytesLt a.2 b.2 <;> simp
    · revert h4b; cases bytesLt b.2 a.2 <;> simp
  cases a; cases b
  simp only at he hb
  rw [he, hb]

theorem tupLt_irrefl : ∀ a : Nat × List Nat, tupLt a a = false := by
  intro a
  simp [tupLt, bytesLt_irrefl]

/-- std::binary_search on a sorted range decides membership, for any strict
linear comparison. -/
theorem binarySearch_iff_mem {α : Type} (lt : α → α → Bool)
    (htr : ∀ a b c, lt a b = true → lt b c = true → lt a c = true)
    (htot : ∀ a b, lt a b = false → lt b a = false → a = b)
    (hirr : ∀ a, lt a a = false)
    (v : α) (l : List α) (hs : l.Pairwise (fun a b => lt b a = false)) :
    binarySearch lt v l = true ↔ v ∈ l := by
  have hlb : lowerBound lt v l = (l.takeWhile fun x => lt x v).length :=
    lowerBound_eq_takeWhile lt htr htot v l hs
  unfold binarySearch
  split
  · rename_i h
    constructor
    · intro hb
      have hvl : lt v (l.get ⟨lowerBound lt v l, h⟩) = false := by
        revert hb; cases lt v (l.get ⟨lowerBound lt v l, h⟩) <;> simp
      have h2 : (l.takeWhile fun x => lt x v).length < l.length := by
        rw [← hlb]; exact h
      obtain ⟨x, hx, hpx⟩ := takeWhile_stop_fail _ l h2
      rw [← hlb] at hx
      rw [List.getElem?_eq_getElem h] at hx
      have hxeq : x = l.get ⟨lowerBound lt v l, h⟩ := by
        have := Option.some.inj hx
        rw [← this]
        simp [List.get_eq_getElem]
      rw [hxeq] at hpx
      have := htot v (l.get ⟨lowerBound lt v l, h⟩) hvl hpx
      rw [this]
      exact List.get_mem l _ _
    · intro hv
      obtain ⟨j, hj⟩ := List.mem_iff_get.mp hv
      rcases Nat.lt_trichotomy (j : Nat) (lowerBound lt v l) with hlt | heq | hgt
      · exfalso
        have hj2 : (j : Nat) < (l.takeWhile fun x => lt x v).length := by
          rw [← hlb]; exact hlt
        have hsome : l[(j : Nat)]? = some v := by
          rw [List.getElem?_eq_getElem j.isLt]
          rw [← hj]
          simp [List.get_eq_getElem]
        have := takeWhile_pre_sat _ l j hj2 v hsome
        rw [hirr v] at this
        simp at this
      · have hfin : (⟨lowerBound lt v l, h⟩ : Fin l.length) = j := Fin.ext heq.symm
        rw [hfin, hj, hirr v]
        simp
      · have hpair := (List.pairwise_iff_getElem.mp hs) (lowerBound lt v l) j h j.isLt hgt
        have hjv : l[(j : Nat)] = v := by
          rw [← hj]
          simp [List.get_eq_getElem]
        rw [hjv] at hpair
        have hfalse : lt v (l.get ⟨lowerBound lt v l, h⟩) = false := by
          simpa [List.get_eq_getElem] using hpair
        rw [hfalse]
        simp
  · rename_i h
    simp only [Bool.false_eq_true, false_iff]
    intro hv
    have h2 : (l.takeWhile fun x => lt x v).length ≤ l.length :=
      (List.takeWhile_sublist (fun x => lt x v)).length_le
    have hlen : (l.takeWhile fun x => lt x v).length = l.length := by omega
    have heq : l.takeWhile (fun x => lt x v) = l :=
      (List.takeWhile_sublist _).eq_of_length hlen
    have hmem : v ∈ l.takeWhile (fun x => lt x v) := by rw [heq]; exact hv
    have := List.mem_takeWhile_imp hmem
    rw [hirr v] at this
    simp at this

/-- Claim C2: with an empty keysToShadow list, shouldShadow is exactly the
inclusive keyRange test on the routing key hash. -/
theorem shouldShadow_keyRange_iff (ctx : Bool) (req : Req) (s : ShadowSettings)
    (h : s.keysToShadow = []) :
    (shouldShadow ctx req (some s)).1 = true ↔
      (s.keyRange.1 ≤ req.routingKeyHash ∧ req.routingKeyHash ≤ s.keyRange.2) := by
  simp [shouldShadow, h]

/-- Witness for C2 at a boundary input: the hash equals the lower endpoint of
the range and shouldShadow returns true. -/
theorem shouldShadow_keyRange_iff_witness :
    (2 ≤ 2 ∧ 2 ≤ 5) ∧
      (shouldShadow true { routingKeyHash := 2, routingKey := [97], payload := 0 }
        (some { keysToShadow := [], keyRange := (2, 5) })).1 = true :=
  ⟨by decide,
    (shouldShadow_keyRange_iff true
      { routingKeyHash := 2, routingKey := [97], payload := 0 }
      { keysToShadow := [], keyRange := (2, 5) } rfl).mpr (by decide)⟩

/-- Claim C3: with a non-empty keysToShadow list sorted by (hash, key),
shouldShadow decides membership of (hash, key) in the list by binary search,
and keyRange is never consulted: replacing it by any range whatsoever leaves
the result unchanged. -/
theorem shouldShadow_keysToShadow_iff (ctx : Bool) (req : Req) (s : ShadowSettings)
    (hne : s.keysToShadow ≠ [])
    (hsort : s.keysToShadow.Pairwise (fun a b => tupLt b a = false)) :
    ((shouldShadow ctx req (some s)).1 = true ↔
        (req.routingKeyHash, req.routingKey) ∈ s.keysToShadow)
      ∧ ∀ lo hi,
          (shouldShadow ctx req
              (some { s with keyRange := (lo, hi) })).1
            = (shouldShadow ctx req (some s)).1 := by
  have hne2 : s.keysToShadow.isEmpty = false := by
    cases hks : s.keysToShadow
    · exact absurd hks hne
    · simp
  constructor
  · have hred : (shouldShadow ctx req (some s)).1
        = binarySearch tupLt (req.routingKeyHash, req.routingKey) s.keysToShadow := by
      simp [shouldShadow, hne2]
    rw [hred]
    exact binarySearch_iff_mem tupLt tupLt_trans tupLt_total tupLt_irrefl _ _ hsort
  · intro lo hi
    simp [shouldShadow, hne2]

/-- Witness for C3: a sorted two-element list, a request matching its second
element, and a keyRange disjoint from the request hash; shouldShadow still
returns true, and with a matching keyRange but a non-member key it returns
false. -/
theorem shouldShadow_keysToShadow_iff_witness :
    (shouldShadow true { routingKeyHash := 2, routingKey := [98], payload := 0 }
        (some { keysToShadow := [(1, [97]), (2, [98])], keyRange := (100, 200) })).1
      = true :=
  ((shouldShadow_keysToShadow_iff true
      { routingKeyHash := 2, routingKey := [98], payload := 0 }
      { keysToShadow := [(1, [97]), (2, [98])], keyRange := (100, 200) }
      (by decide) (by decide)).1).mpr (by decide)

/-! ### Invariants of the route loop -/

theorem shouldShadow_fst_ctx (ctx : Bool) (req : Req) (st : Option ShadowSettings) :
    (shouldShadow ctx req st).1 = (shouldShadow true req st).1 := by
  cases st <;> rfl

theorem shouldShadow_true_no_logs (ctx : Bool) (req : Req) (st : Option ShadowSettings)
    (h : (shouldShadow ctx req st).1 = true) : (shouldShadow ctx req st).2 = [] := by
  cases st with
  | none => simp [shouldShadow] at h
  | some s =>
    simp only [shouldShadow]
    split <;> rfl

theorem shouldShadow_false_no_logs (req : Req) (st : Option ShadowSettings) :
    (shouldShadow false req st).2 = [] := by
  cases st with
  | none => rfl
  | some s =>
    simp only [shouldShadow]
    split <;> rfl

theorem countP_map_logFailure {ρ : Type} (P : Event ρ → Bool)
    (h : ∀ m, P (Event.logFailure m) = false) (xs : List String) :
    (xs.map Event.logFailure).countP P = 0 := by
  induction xs with
  | nil => rfl
  | cons m t ih => simp [List.countP_cons, h, ih]

theorem mem_map_logFailure {ρ : Type} (xs : List String) (e : Event ρ)
    (he : e ∈ xs.map Event.logFailure) : isLogFailure e = true := by
  obtain ⟨m, _, hm⟩ := List.mem_map.mp he
  rw [← hm]
  rfl

section RouteLoopLemmas

variable {ρ : Type} (env : Nat → Req → ρ) (nid : Nat) (policy : ShadowPolicy ρ)
  (ctx : Bool) (req : Req)

theorem routeLoop_adjusted_some :
    ∀ (l : List (Option Nat × Option ShadowSettings)) (a : Req) (nr : Option ρ),
      (routeLoop env nid policy ctx req l (some a) nr).1 = some a := by
  intro l
  induction l with
  | nil => intro a nr; simp [routeLoop]
  | cons entry rest ih =>
    intro a nr
    simp only [routeLoop]
    by_cases hel : (shouldShadow ctx req entry.2).1 = true
    · cases hd : entry.1 with
      | none => simp [hel, hd, ih]
      | some d => simp [hel, hd, ih]
    · simp [hel, ih]

theorem routeLoop_adjusted_none :
    ∀ (l : List (Option Nat × Option ShadowSettings)) (nr : Option ρ),
      (routeLoop env nid policy ctx req l none nr).1
        = (if l.any (firedEntry req) then
            some (policy.makeAdjustedNormalRequest req) else none) := by
  intro l
  induction l with
  | nil => intro nr; simp [routeLoop]
  | cons entry rest ih =>
    intro nr
    simp only [routeLoop, List.any_cons]
    by_cases hel : (shouldShadow ctx req entry.2).1 = true
    · have helt : (shouldShadow true req entry.2).1 = true := by
        rw [← shouldShadow_fst_ctx ctx]; exact hel
      cases hd : entry.1 with
      | none =>
        have hf : firedEntry req entry = false := by
          simp [firedEntry, hd]
        simp only [hf, Bool.false_or]
        simp [hel, hd, ih]
      | some d =>
        have hf : firedEntry req entry = true := by
          simp [firedEntry, hd, helt]
        simp [hel, hd, hf, routeLoop_adjusted_some]
    · have helf : (shouldShadow true req entry.2).1 = false := by
        rw [← shouldShadow_fst_ctx ctx]
        revert hel; cases (shouldShadow ctx req entry.2).1 <;> simp
      have hf : firedEntry req entry = false := by
        simp [firedEntry, helf]
      simp only [hf, Bool.false_or]
      simp [hel, ih]

theorem routeLoop_reply_some :
    ∀ (l : List (Option Nat × Option ShadowSettings)) (adj : Option Req) (r : ρ),
      (routeLoop env nid policy ctx req l adj (some r)).2.1 = some r := by
  intro l
  induction l with
  | nil => intro adj r; simp [routeLoop]
  | cons entry rest ih =>
    intro adj r
    simp only [routeLoop]
    by_cases hel : (shouldShadow ctx req entry.2).1 = true
    · cases hd : entry.1 with
      | none => simp [hel, hd, ih]
      | some d => simp [hel, hd, ih]
    · simp [hel, ih]

theorem routeLoop_reply_nodelay (hd : policy.shouldDelayShadow = false) :
    ∀ (l : List (Option Nat × Option ShadowSettings)) (adj : Option Req) (nr : Option ρ),
      (routeLoop env nid policy ctx req l adj nr).2.1 = nr := by
  intro l
  induction l with
  | nil => intro adj nr; simp [routeLoop]
  | cons entry rest ih =>
    intro adj nr
    simp only [routeLoop]
    by_cases hel : (shouldShadow ctx req entry.2).1 = true
    · cases hde : entry.1 with
      | none => simp [hel, hde, ih]
      | some d => simp [hel, hde, hd, ih]
    · simp [hel, ih]

theorem routeLoop_reply_delay (hdel : policy.shouldDelayShadow = true) :
    ∀ (l : List (Option Nat × Option ShadowSettings)) (adj : Option Req),
      (routeLoop env nid policy ctx req l adj none).2.1
        = (if l.any (firedEntry req) then
            some (env nid (adj.getD (policy.makeAdjustedNormalRequest req)))
          else none) := by
  intro l
  induction l with
  | nil => intro adj; simp [routeLoop]
  | cons entry rest ih =>
    intro adj
    simp only [routeLoop, List.any_cons]
    by_cases hel : (shouldShadow ctx req entry.2).1 = true
    · have helt : (shouldShadow true req entry.2).1 = true := by
        rw [← shouldShadow_fst_ctx ctx]; exact hel
      cases hde : entry.1 with
      | none =>
        have hf : firedEntry req entry = false := by
          simp [firedEntry, hde]
        simp only [hf, Bool.false_or]
        simp [hel, hde, ih]
      | some d =>
        have hf : firedEntry req entry = true := by
          simp [firedEntry, hde, helt]
        simp [hel, hde, hf, hdel, routeLoop_reply_some]
    · have helf : (shouldShadow true req entry.2).1 = false := by
        rw [← shouldShadow_fst_ctx ctx]
        revert hel; cases (shouldShadow ctx req entry.2).1 <;> simp
      have hf : firedEntry req entry = false := by
        simp [firedEntry, helf]
      simp only [hf, Bool.false_or]
      simp [hel, ih]

end RouteLoopLemmas

section RouteLoopTrace

variable {ρ : Type} (env : Nat → Req → ρ) (nid : Nat) (policy : ShadowPolicy ρ)
  (ctx : Bool) (req : Req)

theorem routeLoop_primary_count :
    ∀ (l : List (Option Nat × Option ShadowSettings)) (adj : Option Req) (nr : Option ρ),
      ((routeLoop env nid policy ctx req l adj nr).2.2.countP isPrimaryCall)
        = (if policy.shouldDelayShadow && nr.isNone && l.any (firedEntry req)
            then 1 else 0) := by
  intro l
  induction l with
  | nil => intro adj nr; simp [routeLoop]
  | cons entry rest ih =>
    intro adj nr
    simp only [routeLoop, List.any_cons]
    by_cases hel : (shouldShadow ctx req entry.2).1 = true
    · have helt : (shouldShadow true req entry.2).1 = true := by
        rw [← shouldShadow_fst_ctx ctx]; exact hel
      cases hde : entry.1 with
      | none =>
        have hf : firedEntry req entry = false := by simp [firedEntry, hde]
        simp only [hf, Bool.false_or]
        simp [hel, hde, List.countP_append, ih,
          @countP_map_logFailure ρ isPrimaryCall (fun m => rfl)]
        intro _
        rfl
      | some d =>
        have hf : firedEntry req entry = true := by simp [firedEntry, hde, helt]
        simp only [hf, Bool.true_or]
        cases nr with
        | some r =>
          simp [hel, hde, List.countP_append, List.countP_cons,
            @countP_map_logFailure ρ isPrimaryCall (fun m => rfl), ih,
            isPrimaryCall, isDispatch]
        | none =>
          cases hdel : policy.shouldDelayShadow with
          | false =>
            simp [hel, hde, hdel, List.countP_append, List.countP_cons,
              @countP_map_logFailure ρ isPrimaryCall (fun m => rfl), ih,
              isPrimaryCall]
          | true =>
            simp [hel, hde, hdel, List.countP_append, List.countP_cons,
              @countP_map_logFailure ρ isPrimaryCall (fun m => rfl), ih,
              isPrimaryCall]
    · have helf : (shouldShadow true req entry.2).1 = false := by
        rw [← shouldShadow_fst_ctx ctx]
        revert hel; cases (shouldShadow ctx req entry.2).1 <;> simp
      have hf : firedEntry req entry = false := by simp [firedEntry, helf]
      simp only [hf, Bool.false_or]
      simp [hel, List.countP_append, ih,
        @countP_map_logFailure ρ isPrimaryCall (fun m => rfl)]

end RouteLoopTrace

section RouteLoopTrace2

variable {ρ : Type} (env : Nat → Req → ρ) (nid : Nat) (policy : ShadowPolicy ρ)
  (ctx : Bool) (req : Req)

theorem routeLoop_after_reply :
    ∀ (l : List (Option Nat × Option ShadowSettings)) (adj : Option Req) (r : ρ),
      (∀ e ∈ (routeLoop env nid policy ctx req l adj (some r)).2.2,
          isPrimaryCall e = false)
        ∧ (∀ d q p, Event.dispatch d q p ∈
              (routeLoop env nid policy ctx req l adj (some r)).2.2 →
            p = some r) := by
  intro l
  induction l with
  | nil => intro adj r; simp [routeLoop]
  | cons entry rest ih =>
    intro adj r
    simp only [routeLoop]
    by_cases hel : (shouldShadow ctx req entry.2).1 = true
    · cases hde : entry.1 with
      | none =>
        simp only [hel, hde, if_pos]
        constructor
        · intro e he
          simp only [List.mem_append] at he
          rcases he with (he | he) | he
          · have := mem_map_logFailure _ e he
            cases e <;> simp_all [isLogFailure, isPrimaryCall]
          · revert he; split <;> simp_all [isPrimaryCall]
          · exact (ih adj r).1 e he
        · intro d q p hp
          simp only [List.mem_append] at hp
          rcases hp with (hp | hp) | hp
          · have := mem_map_logFailure _ _ hp; simp [isLogFailure] at this
          · revert hp; split <;> simp
          · exact (ih adj r).2 d q p hp
      | some dd =>
        simp only [hel, hde, if_pos]
        constructor
        · intro e he
          simp only [List.mem_append, List.mem_cons, Option.isNone_some,
            Bool.false_and, if_neg] at he
          rcases he with ((he | he) | he) | he | he
          · have := mem_map_logFailure _ e he
            cases e <;> simp_all [isLogFailure, isPrimaryCall]
          · revert he; split <;> simp_all [isPrimaryCall]
          · simp [Bool.false_and] at he
          · rw [he]; rfl
          · exact (ih _ r).1 e he
        · intro d q p hp
          simp only [List.mem_append, List.mem_cons, Option.isNone_some,
            Bool.false_and, if_neg] at hp
          rcases hp with ((hp | hp) | hp) | hp | hp
          · have := mem_map_logFailure _ _ hp; simp [isLogFailure] at this
          · revert hp; split <;> simp
          · simp [Bool.false_and] at hp
          · have h3 := ((Event.dispatch.injEq _ _ _ _ _ _).mp hp).2.2
            simpa using h3
          · exact (ih _ r).2 d q p hp
    · rw [if_neg hel]
      constructor
      · intro e he
        simp only [List.mem_append] at he
        rcases he with he | he
        · have := mem_map_logFailure _ e he
          cases e <;> simp_all [isLogFailure, isPrimaryCall]
        · exact (ih adj r).1 e he
      · intro d q p hp
        simp only [List.mem_append] at hp
        rcases hp with hp | hp
        · have := mem_map_logFailure _ _ hp; simp [isLogFailure] at this
        · exact (ih adj r).2 d q p hp

end RouteLoopTrace2

section RouteLoopTrace3

variable {ρ : Type} (env : Nat → Req → ρ) (nid : Nat) (policy : ShadowPolicy ρ)
  (ctx : Bool) (req : Req)

theorem routeLoop_nodelay_dispatch (hdel : policy.shouldDelayShadow = false) :
    ∀ (l : List (Option Nat × Option ShadowSettings)) (adj : Option Req)
      (nr : Option ρ) (d : Nat) (q : Req) (p : Option ρ),
      Event.dispatch d q p ∈ (routeLoop env nid policy ctx req l adj nr).2.2 →
        p = nr := by
  intro l
  induction l with
  | nil => intro adj nr d q p hp; simp [routeLoop] at hp
  | cons entry rest ih =>
    intro adj nr d q p hp
    simp only [routeLoop] at hp
    by_cases hel : (shouldShadow ctx req entry.2).1 = true
    · cases hde : entry.1 with
      | none =>
        rw [if_pos hel, hde] at hp
        simp only [List.mem_append] at hp
        rcases hp with (hp | hp) | hp
        · have := mem_map_logFailure _ _ hp; simp [isLogFailure] at this
        · revert hp; split <;> simp
        · exact ih adj nr d q p hp
      | some dd =>
        rw [if_pos hel, hde] at hp
        simp only [hdel, Bool.and_false, List.mem_append, List.mem_cons] at hp
        rcases hp with ((hp | hp) | hp) | hp | hp
        · have := mem_map_logFailure _ _ hp; simp [isLogFailure] at this
        · revert hp; split <;> simp
        · simp at hp
        · have h3 := ((Event.dispatch.injEq _ _ _ _ _ _).mp hp).2.2
          simpa using h3
        · have := ih _ _ d q p hp
          simpa using this
    · rw [if_neg hel] at hp
      simp only [List.mem_append] at hp
      rcases hp with hp | hp
      · have := mem_map_logFailure _ _ hp; simp [isLogFailure] at this
      · exact ih adj nr d q p hp

theorem routeLoop_nofired_logs :
    ∀ (l : List (Option Nat × Option ShadowSettings)) (adj : Option Req) (nr : Option ρ),
      l.any (firedEntry req) = false →
        ∀ e ∈ (routeLoop env nid policy ctx req l adj nr).2.2,
          isLogFailure e = true := by
  intro l
  induction l with
  | nil => intro adj nr _ e he; simp [routeLoop] at he
  | cons entry rest ih =>
    intro adj nr hany e he
    simp only [List.any_cons, Bool.or_eq_false_iff] at hany
    simp only [routeLoop] at he
    by_cases hel : (shouldShadow ctx req entry.2).1 = true
    · have helt : (shouldShadow true req entry.2).1 = true := by
        rw [← shouldShadow_fst_ctx ctx]; exact hel
      cases hde : entry.1 with
      | none =>
        rw [if_pos hel, hde] at he
        simp only [List.mem_append] at he
        rcases he with (he | he) | he
        · exact mem_map_logFailure _ e he
        · revert he; split
          · intro he; simp only [List.mem_singleton] at he; rw [he]; rfl
          · intro he; simp at he
        · exact ih adj nr hany.2 e he
      | some dd =>
        exfalso
        have hft : firedEntry req entry = true := by simp [firedEntry, hde, helt]
        have h1 := hany.1
        rw [hft] at h1
        simp at h1
    · rw [if_neg hel] at he
      simp only [List.mem_append] at he
      rcases he with he | he
      · exact mem_map_logFailure _ e he
      · exact ih adj nr hany.2 e he

end RouteLoopTrace3

section RouteLoopTrace4

variable {ρ : Type} (env : Nat → Req → ρ) (nid : Nat) (policy : ShadowPolicy ρ)
  (ctx : Bool) (req : Req)

theorem routeLoop_adjust_count :
    ∀ (l : List (Option Nat × Option ShadowSettings)) (adj : Option Req) (nr : Option ρ),
      ((routeLoop env nid policy ctx req l adj nr).2.2.countP isAdjust)
        = (if adj.isNone && l.any (firedEntry req) then 1 else 0) := by
  intro l
  induction l with
  | nil => intro adj nr; simp [routeLoop]
  | cons entry rest ih =>
    intro adj nr
    simp only [routeLoop, List.any_cons]
    by_cases hel : (shouldShadow ctx req entry.2).1 = true
    · have helt : (shouldShadow true req entry.2).1 = true := by
        rw [← shouldShadow_fst_ctx ctx]; exact hel
      cases hde : entry.1 with
      | none =>
        have hf : firedEntry req entry = false := by simp [firedEntry, hde]
        simp only [hf, Bool.false_or]
        simp [hel, hde, List.countP_append, ih,
          @countP_map_logFailure ρ isAdjust (fun m => rfl)]
        intro _
        rfl
      | some dd =>
        have hf : firedEntry req entry = true := by simp [firedEntry, hde, helt]
        simp only [hf, Bool.true_or]
        cases adj with
        | some a =>
          simp [hel, hde, List.countP_append, List.countP_cons,
            @countP_map_logFailure ρ isAdjust (fun m => rfl), ih, isAdjust]
          split <;> simp [List.countP_cons, isAdjust]
        | none =>
          simp [hel, hde, List.countP_append, List.countP_cons,
            @countP_map_logFailure ρ isAdjust (fun m => rfl), ih, isAdjust]
          split <;> simp [List.countP_cons, isAdjust]
    · have helf : (shouldShadow true req entry.2).1 = false := by
        rw [← shouldShadow_fst_ctx ctx]
        revert hel; cases (shouldShadow ctx req entry.2).1 <;> simp
      have hf : firedEntry req entry = false := by simp [firedEntry, helf]
      simp only [hf, Bool.false_or]
      simp [hel, List.countP_append, ih,
        @countP_map_logFailure ρ isAdjust (fun m => rfl)]

theorem routeLoop_dispatch_req :
    ∀ (l : List (Option Nat × Option ShadowSettings)) (adj : Option Req)
      (nr : Option ρ) (d : Nat) (q : Req) (p : Option ρ),
      Event.dispatch d q p ∈ (routeLoop env nid policy ctx req l adj nr).2.2 →
        q = policy.makeShadowRequest
              (adj.getD (policy.makeAdjustedNormalRequest req)) := by
  intro l
  induction l with
  | nil => intro adj nr d q p hp; simp [routeLoop] at hp
  | cons entry rest ih =>
    intro adj nr d q p hp
    simp only [routeLoop] at hp
    by_cases hel : (shouldShadow ctx req entry.2).1 = true
    · cases hde : entry.1 with
      | none =>
        rw [if_pos hel, hde] at hp
        simp only [List.mem_append] at hp
        rcases hp with (hp | hp) | hp
        · have := mem_map_logFailure _ _ hp; simp [isLogFailure] at this
        · revert hp; split <;> simp
        · exact ih adj nr d q p hp
      | some dd =>
        rw [if_pos hel, hde] at hp
        simp only [List.mem_append, List.mem_cons] at hp
        rcases hp with ((hp | hp) | hp) | hp | hp
        · have := mem_map_logFailure _ _ hp; simp [isLogFailure] at this
        · revert hp; split <;> simp
        · revert hp; split <;> simp
        · exact ((Event.dispatch.injEq _ _ _ _ _ _).mp hp).2.1
        · have := ih _ _ d q p hp
          simpa using this
    · rw [if_neg hel] at hp
      simp only [List.mem_append] at hp
      rcases hp with hp | hp
      · have := mem_map_logFailure _ _ hp; simp [isLogFailure] at this
      · exact ih adj nr d q p hp

theorem routeLoop_primary_arg :
    ∀ (l : List (Option Nat × Option ShadowSettings)) (adj : Option Req)
      (nr : Option ρ) (qq : Req),
      Event.primaryCall qq ∈ (routeLoop env nid policy ctx req l adj nr).2.2 →
        qq = adj.getD (policy.makeAdjustedNormalRequest req) := by
  intro l
  induction l with
  | nil => intro adj nr qq hp; simp [routeLoop] at hp
  | cons entry rest ih =>
    intro adj nr qq hp
    simp only [routeLoop] at hp
    by_cases hel : (shouldShadow ctx req entry.2).1 = true
    · cases hde : entry.1 with
      | none =>
        rw [if_pos hel, hde] at hp
        simp only [List.mem_append] at hp
        rcases hp with (hp | hp) | hp
        · have := mem_map_logFailure _ _ hp; simp [isLogFailure] at this
        · revert hp; split <;> simp
        · exact ih adj nr qq hp
      | some dd =>
        rw [if_pos hel, hde] at hp
        simp only [List.mem_append, List.mem_cons] at hp
        rcases hp with ((hp | hp) | hp) | hp | hp
        · have := mem_map_logFailure _ _ hp; simp [isLogFailure] at this
        · revert hp; split <;> simp
        · revert hp; split
          · intro hp
            simp only [List.mem_singleton] at hp
            exact ((Event.primaryCall.injEq _ _).mp hp)
          · intro hp; simp at hp
        · simp at hp
        · have := ih _ _ qq hp
          simpa using this
    · rw [if_neg hel] at hp
      simp only [List.mem_append] at hp
      rcases hp with hp | hp
      · have := mem_map_logFailure _ _ hp; simp [isLogFailure] at this
      · exact ih adj nr qq hp

end RouteLoopTrace4

section RouteLoopTrace5

variable {ρ : Type} (env : Nat → Req → ρ) (nid : Nat) (policy : ShadowPolicy ρ)
  (ctx : Bool) (req : Req)

/-- Structure of the loop trace under a delaying policy, starting from the
initial state: some leading failure reports, then the one adjustment, then the
one primary call, then a tail without primary calls in which every dispatch
carries the primary reply. -/
theorem routeLoop_delay_decomp (hdel : policy.shouldDelayShadow = true) :
    ∀ (l : List (Option Nat × Option ShadowSettings)),
      l.any (firedEntry req) = true →
        ∃ lg tl,
          (routeLoop env nid policy ctx req l none none).2.2
              = lg ++ Event.adjust req ::
                  Event.primaryCall (policy.makeAdjustedNormalRequest req) :: tl
            ∧ (∀ e ∈ lg, isLogFailure e = true)
            ∧ (∀ e ∈ tl, isPrimaryCall e = false)
            ∧ (∀ d q p, Event.dispatch d q p ∈ tl →
                p = some (env nid (policy.makeAdjustedNormalRequest req))) := by
  intro l
  induction l with
  | nil => intro hany; simp at hany
  | cons entry rest ih =>
    intro hany
    simp only [List.any_cons] at hany
    simp only [routeLoop]
    by_cases hel : (shouldShadow ctx req entry.2).1 = true
    · have helt : (shouldShadow true req entry.2).1 = true := by
        rw [← shouldShadow_fst_ctx ctx]; exact hel
      cases hde : entry.1 with
      | none =>
        have hf : firedEntry req entry = false := by simp [firedEntry, hde]
        have hrest : rest.any (firedEntry req) = true := by
          rw [hf] at hany; simpa using hany
        obtain ⟨lg, tl, heq, hlg, htl, hdisp⟩ := ih hrest
        rw [if_pos hel]
        refine ⟨(((shouldShadow ctx req entry.2).2.map Event.logFailure)
            ++ if ctx = true then [Event.logFailure kNullHandleMsg] else []) ++ lg,
          tl, ?_, ?_, htl, hdisp⟩
        · simp only [heq, List.append_assoc]
        · intro e he
          simp only [List.mem_append] at he
          rcases he with (he | he) | he
          · exact mem_map_logFailure _ e he
          · revert he; split
            · intro he; simp only [List.mem_singleton] at he; rw [he]; rfl
            · intro he; simp at he
          · exact hlg e he
      | some dd =>
        rw [if_pos hel]
        have hlogs : (shouldShadow ctx req entry.2).2 = [] :=
          shouldShadow_true_no_logs ctx req entry.2 hel
        refine ⟨[], Event.dispatch dd
            (policy.makeShadowRequest (policy.makeAdjustedNormalRequest req))
            (some (env nid (policy.makeAdjustedNormalRequest req)))
          :: (routeLoop env nid policy ctx req rest
              (some (policy.makeAdjustedNormalRequest req))
              (some (env nid (policy.makeAdjustedNormalRequest req)))).2.2,
          ?_, ?_, ?_, ?_⟩
        · simp [hlogs, hdel]
        · intro e he; simp at he
        · intro e he
          simp only [List.mem_cons] at he
          rcases he with he | he
          · rw [he]; rfl
          · exact (routeLoop_after_reply env nid policy ctx req rest _ _).1 e he
        · intro d q p hp
          simp only [List.mem_cons] at hp
          rcases hp with hp | hp
          · have h3 := ((Event.dispatch.injEq _ _ _ _ _ _).mp hp).2.2
            exact h3
          · exact (routeLoop_after_reply env nid policy ctx req rest _ _).2 d q p hp
    · have helf : (shouldShadow true req entry.2).1 = false := by
        rw [← shouldShadow_fst_ctx ctx]
        revert hel; cases (shouldShadow ctx req entry.2).1 <;> simp
      have hf : firedEntry req entry = false := by simp [firedEntry, helf]
      have hrest : rest.any (firedEntry req) = true := by
        rw [hf] at hany; simpa using hany
      obtain ⟨lg, tl, heq, hlg, htl, hdisp⟩ := ih hrest
      rw [if_neg hel]
      refine ⟨((shouldShadow ctx req entry.2).2.map Event.logFailure) ++ lg,
        tl, ?_, ?_, htl, hdisp⟩
      · simp only [heq, List.append_assoc]
      · intro e he
        simp only [List.mem_append] at he
        rcases he with he | he
        · exact mem_map_logFailure _ e he
        · exact hlg e he

end RouteLoopTrace5

theorem shouldShadow_logs_not_nullhandle {ρ : Type} (ctx : Bool) (req : Req)
    (st : Option ShadowSettings) :
    (((shouldShadow ctx req st).2.map (Event.logFailure : String → Event ρ)).countP
      isNullHandleLog) = 0 := by
  cases st with
  | none =>
    have hb : isNullHandleLog (Event.logFailure kSettingsNullMsg : Event ρ) = false := rfl
    cases ctx
    · rfl
    · simp [shouldShadow, List.countP_cons, hb]
  | some s =>
    simp only [shouldShadow]
    split <;> rfl

theorem filter_not_log_map {ρ : Type} (xs : List String) :
    ((xs.map (Event.logFailure : String → Event ρ)).filter (fun e => !(isLogFailure e))) = [] := by
  induction xs with
  | nil => rfl
  | cons m t ih => simp [List.filter_cons, isLogFailure, ih]

section RouteLoopTrace6

variable {ρ : Type} (env : Nat → Req → ρ) (nid : Nat) (policy : ShadowPolicy ρ)
  (ctx : Bool) (req : Req)

theorem routeLoop_nullhandle_count :
    ∀ (l : List (Option Nat × Option ShadowSettings)) (adj : Option Req) (nr : Option ρ),
      ((routeLoop env nid policy ctx req l adj nr).2.2.countP isNullHandleLog)
        = (if ctx then
            l.countP (fun e => (shouldShadow true req e.2).1 && e.1.isNone)
          else 0) := by
  intro l
  induction l with
  | nil => intro adj nr; cases ctx <;> simp [routeLoop]
  | cons entry rest ih =>
    intro adj nr
    simp only [routeLoop, List.countP_cons]
    by_cases hel : (shouldShadow ctx req entry.2).1 = true
    · have helt : (shouldShadow true req entry.2).1 = true := by
        rw [← shouldShadow_fst_ctx ctx]; exact hel
      have hlogs : (shouldShadow ctx req entry.2).2 = [] :=
        shouldShadow_true_no_logs ctx req entry.2 hel
      cases hde : entry.1 with
      | none =>
        rw [if_pos hel]
        simp only [hde]
        simp [hlogs, List.countP_append, ih, helt, isNullHandleLog]
        cases ctx
        · simp [List.countP_cons, isNullHandleLog]
        · simp [List.countP_cons, isNullHandleLog]
          omega
      | some dd =>
        rw [if_pos hel]
        simp only [hde]
        have e1 : (List.countP isNullHandleLog
            (if adj.isSome = true then ([] : List (Event ρ)) else [Event.adjust req])) = 0 := by
          split <;> rfl
        have e2 : (List.countP isNullHandleLog
            ((if (nr.isNone && policy.shouldDelayShadow) = true then
                ((some (env nid (adj.getD (policy.makeAdjustedNormalRequest req))),
                  [Event.primaryCall (adj.getD (policy.makeAdjustedNormalRequest req))])
                  : Option ρ × List (Event ρ))
              else (nr, [])).2)) = 0 := by
          split <;> rfl
        simp [hlogs, List.countP_append, List.countP_cons, ih, helt,
          isNullHandleLog, e1, e2]
    · have helf : (shouldShadow true req entry.2).1 = false := by
        rw [← shouldShadow_fst_ctx ctx]
        revert hel; cases (shouldShadow ctx req entry.2).1 <;> simp
      rw [if_neg hel]
      simp [List.countP_append, ih, helf,
        @shouldShadow_logs_not_nullhandle ρ ctx req entry.2]

end RouteLoopTrace6

theorem routeLoop_ctx_false_filter {ρ : Type} (env : Nat → Req → ρ) (nid : Nat)
    (policy : ShadowPolicy ρ) (req : Req) :
    ∀ (l : List (Option Nat × Option ShadowSettings)) (adj : Option Req) (nr : Option ρ),
      routeLoop env nid policy false req l adj nr
        = ((routeLoop env nid policy true req l adj nr).1,
           (routeLoop env nid policy true req l adj nr).2.1,
           (routeLoop env nid policy true req l adj nr).2.2.filter
             (fun e => !(isLogFailure e))) := by
  intro l
  induction l with
  | nil => intro adj nr; simp [routeLoop]
  | cons entry rest ih =>
    intro adj nr
    simp only [routeLoop]
    rw [shouldShadow_fst_ctx false req entry.2]
    by_cases helt : (shouldShadow true req entry.2).1 = true
    · have hlogs : (shouldShadow true req entry.2).2 = [] :=
        shouldShadow_true_no_logs true req entry.2 helt
      rw [if_pos helt, if_pos helt]
      cases hde : entry.1 with
      | none =>
        simp only [hde]
        simp [hlogs, shouldShadow_false_no_logs, List.filter_append,
          List.filter_cons, isLogFailure, ih]
      | some dd =>
        simp only [hde]
        simp only [ih]
        simp [hlogs, List.filter_append, List.filter_cons, isLogFailure]
        split <;> simp [List.filter_cons, isLogFailure, shouldShadow_false_no_logs] <;>
          split <;> simp [List.filter_cons, isLogFailure, shouldShadow_false_no_logs]
    · have helf : (shouldShadow true req entry.2).1 = false := by
        revert helt; cases (shouldShadow true req entry.2).1 <;> simp
      rw [if_neg helt, if_neg helt]
      simp [shouldShadow_false_no_logs, List.filter_append, ih,
        @filter_not_log_map ρ]

theorem routeLoop_env_eq {ρ : Type} (env1 env2 : Nat → Req → ρ) (nid : Nat)
    (policy : ShadowPolicy ρ) (ctx : Bool) (req : Req)
    (h : env1 nid = env2 nid) :
    ∀ (l : List (Option Nat × Option ShadowSettings)) (adj : Option Req) (nr : Option ρ),
      routeLoop env1 nid policy ctx req l adj nr
        = routeLoop env2 nid policy ctx req l adj nr := by
  intro l
  induction l with
  | nil => intro adj nr; simp [routeLoop]
  | cons entry rest ih =>
    intro adj nr
    simp only [routeLoop]
    rw [h]
    simp only [ih]

/-! ### Claim theorems -/

/-- Claim C1: route calls the primary destination exactly once per request,
whatever the number of eligible or firing shadow entries; the reply returned
is the primary reply for the adjusted request when some entry fired (also when
it was computed early because the policy delays shadowing) and for the
original request otherwise. -/
theorem route_primary_exactly_once {ρ : Type} (env : Nat → Req → ρ)
    (node : ShadowRoute ρ) (ctx : Bool) (req : Req) :
    ((route env node ctx req).2.countP isPrimaryCall = 1)
      ∧ (route env node ctx req).1
          = env node.normal
              (if anyFired node req then
                node.shadowPolicy.makeAdjustedNormalRequest req
              else req) := by
  have hcnt := routeLoop_primary_count env node.normal node.shadowPolicy ctx req
    node.shadowData none none
  have hadj := routeLoop_adjusted_none env node.normal node.shadowPolicy ctx req
    node.shadowData (none : Option ρ)
  cases hfired : node.shadowData.any (firedEntry req) with
  | false =>
    rw [hfired] at hcnt hadj
    simp only [Bool.and_false, if_neg (by simp : ¬ (false = true))] at hcnt hadj
    have hnr : (routeLoop env node.normal node.shadowPolicy ctx req
        node.shadowData none none).2.1 = none := by
      cases hdel : node.shadowPolicy.shouldDelayShadow with
      | false =>
        exact routeLoop_reply_nodelay env node.normal node.shadowPolicy ctx req
          hdel node.shadowData none none
      | true =>
        have h := routeLoop_reply_delay env node.normal node.shadowPolicy ctx req
          hdel node.shadowData none
        rw [hfired] at h
        simpa using h
    simp only [route, anyFired, hfired, hnr, hadj]
    constructor
    · simp [List.countP_append, List.countP_cons, isPrimaryCall]
      cases hh : node.shadowPolicy.shouldDelayShadow <;> simp [hh] at hcnt <;>
        exact hcnt
    · simp
  | true =>
    rw [hfired] at hcnt hadj
    simp only [Bool.and_true, if_pos rfl] at hadj
    cases hdel : node.shadowPolicy.shouldDelayShadow with
    | false =>
      have hnr := routeLoop_reply_nodelay env node.normal node.shadowPolicy ctx req
        hdel node.shadowData none none
      rw [hdel] at hcnt
      simp only [Bool.false_and, if_neg (by simp : ¬ (false = true))] at hcnt
      simp only [route, anyFired, hfired, hnr, hadj]
      constructor
      · simp [List.countP_append, List.countP_cons, isPrimaryCall, hcnt]
      · simp
    | true =>
      have hnr := routeLoop_reply_delay env node.normal node.shadowPolicy ctx req
        hdel node.shadowData none
      rw [hfired] at hnr
      simp only [if_pos rfl, Option.getD_none] at hnr
      rw [hdel] at hcnt
      simp only [Bool.true_and, Option.isNone_none, if_pos rfl] at hcnt
      simp only [route, anyFired, hfired, hnr, hadj]
      constructor
      · simpa using hcnt
      · simp

/-- Claim C4: under a delaying policy the primary route call happens exactly
once and before any shadow dispatch (every trace prefix that contains a
dispatch already contains the primary call); the primary reply is both the
value route returns and the reply every dispatched entry got its post-shadow
observer built from; and under a non-delaying policy no dispatch of the
invocation carries a post-shadow observer (nullptr is passed). -/
theorem route_delay_primary_first {ρ : Type} (env : Nat → Req → ρ)
    (node : ShadowRoute ρ) (ctx : Bool) (req : Req) :
    (node.shadowPolicy.shouldDelayShadow = true →
        ((route env node ctx req).2.countP isPrimaryCall = 1)
          ∧ (∀ n, 0 < ((route env node ctx req).2.take n).countP isDispatch →
              0 < ((route env node ctx req).2.take n).countP isPrimaryCall)
          ∧ (∀ d q p, Event.dispatch d q p ∈ (route env node ctx req).2 →
              p = some (route env node ctx req).1))
      ∧ (node.shadowPolicy.shouldDelayShadow = false →
          ∀ d q p, Event.dispatch d q p ∈ (route env node ctx req).2 →
            p = none) := by
  constructor
  · intro hdel
    cases hfired : node.shadowData.any (firedEntry req) with
    | true =>
      obtain ⟨lg, tl, heq, hlg, htl, hdisp⟩ := routeLoop_delay_decomp env
        node.normal node.shadowPolicy ctx req hdel node.shadowData hfired
      have hnr := routeLoop_reply_delay env node.normal node.shadowPolicy ctx req
        hdel node.shadowData none
      rw [hfired] at hnr
      simp at hnr
      have hroute : route env node ctx req
          = (env node.normal (node.shadowPolicy.makeAdjustedNormalRequest req),
            (routeLoop env node.normal node.shadowPolicy ctx req
              node.shadowData none none).2.2) := by
        simp only [route, hnr]
      rw [hroute]
      have hlgp : ∀ e ∈ lg, isPrimaryCall e = false := by
        intro e he
        have := hlg e he
        cases e <;> simp_all [isLogFailure, isPrimaryCall]
      have hlgd : ∀ e ∈ lg, isDispatch e = false := by
        intro e he
        have := hlg e he
        cases e <;> simp_all [isLogFailure, isDispatch]
      refine ⟨?_, ?_, ?_⟩
      · rw [heq]
        simp only [List.countP_append, List.countP_cons]
        have h1 : lg.countP isPrimaryCall = 0 :=
          List.countP_eq_zero.mpr (fun e he => by simp [hlgp e he])
        have h2 : tl.countP isPrimaryCall = 0 :=
          List.countP_eq_zero.mpr (fun e he => by simp [htl e he])
        simp [h1, h2, isPrimaryCall, isDispatch]
      · intro n hpos
        rw [heq] at hpos ⊢
        have hassoc : lg ++ Event.adjust req ::
            Event.primaryCall (node.shadowPolicy.makeAdjustedNormalRequest req) :: tl
            = (lg ++ [Event.adjust req]) ++
              Event.primaryCall (node.shadowPolicy.makeAdjustedNormalRequest req) :: tl := by
          simp
        rw [hassoc] at hpos ⊢
        rw [List.take_append_eq_append_take] at hpos ⊢
        have hL1 : ((lg ++ [Event.adjust req]).take n).countP isDispatch = 0 := by
          have hsub := (List.take_sublist n (lg ++ [Event.adjust req])).countP_le isDispatch
          have hall : (lg ++ [Event.adjust req]).countP isDispatch = 0 := by
            refine List.countP_eq_zero.mpr ?_
            intro e he
            simp only [List.mem_append, List.mem_singleton] at he
            rcases he with he | he
            · simp [hlgd e he]
            · rw [he]; simp [isDispatch]
          omega
        rw [List.countP_append] at hpos ⊢
        rw [hL1] at hpos
        simp only [Nat.zero_add] at hpos
        cases hm : n - (lg ++ [Event.adjust req]).length with
        | zero => rw [hm] at hpos; simp at hpos
        | succ k =>
          rw [List.take_succ_cons, List.countP_cons]
          simp [isPrimaryCall]
      · intro d q p hp
        rw [heq] at hp
        simp only [List.mem_append, List.mem_cons] at hp
        rcases hp with hp | hp | hp | hp
        · have := hlgd _ hp
          simp [isDispatch] at this
        · simp at hp
        · simp at hp
        · exact hdisp d q p hp
    | false =>
      have hnr : (routeLoop env node.normal node.shadowPolicy ctx req
          node.shadowData none none).2.1 = none := by
        have h := routeLoop_reply_delay env node.normal node.shadowPolicy ctx req
          hdel node.shadowData none
        rw [hfired] at h
        simpa using h
      have hlogs := routeLoop_nofired_logs env node.normal node.shadowPolicy ctx req
        node.shadowData none none hfired
      have hadj := routeLoop_adjusted_none env node.normal node.shadowPolicy ctx req
        node.shadowData (none : Option ρ)
      rw [hfired] at hadj
      simp only [if_neg (by simp : ¬ (false = true))] at hadj
      have hroute : route env node ctx req
          = (env node.normal req,
            (routeLoop env node.normal node.shadowPolicy ctx req
              node.shadowData none none).2.2 ++ [Event.primaryCall req]) := by
        simp only [route, hnr, hadj]
        simp
      rw [hroute]
      dsimp only
      have hld : ∀ e ∈ (routeLoop env node.normal node.shadowPolicy ctx req
          node.shadowData none none).2.2, isDispatch e = false := by
        intro e he
        have := hlogs e he
        cases e <;> simp_all [isLogFailure, isDispatch]
      have hlp : ∀ e ∈ (routeLoop env node.normal node.shadowPolicy ctx req
          node.shadowData none none).2.2, isPrimaryCall e = false := by
        intro e he
        have := hlogs e he
        cases e <;> simp_all [isLogFailure, isPrimaryCall]
      refine ⟨?_, ?_, ?_⟩
      · simp only [List.countP_append, List.countP_cons]
        have h1 : (routeLoop env node.normal node.shadowPolicy ctx req
            node.shadowData none none).2.2.countP isPrimaryCall = 0 :=
          List.countP_eq_zero.mpr (fun e he => by simp [hlp e he])
        simp [h1, isPrimaryCall]
      · intro n hpos
        exfalso
        have hz : ((routeLoop env node.normal node.shadowPolicy ctx req
            node.shadowData none none).2.2 ++ [Event.primaryCall req]).countP
              isDispatch = 0 := by
          rw [List.countP_append]
          have h1 : (routeLoop env node.normal node.shadowPolicy ctx req
              node.shadowData none none).2.2.countP isDispatch = 0 :=
            List.countP_eq_zero.mpr (fun e he => by simp [hld e he])
          simp [h1, isDispatch]
        have hle := (List.take_sublist n
          ((routeLoop env node.normal node.shadowPolicy ctx req
            node.shadowData none none).2.2
              ++ [Event.primaryCall req])).countP_le isDispatch
        omega
      · intro d q p hp
        simp only [List.mem_append, List.mem_singleton] at hp
        rcases hp with hp | hp
        · have := hld _ hp
          simp [isDispatch] at this
        · simp at hp
  · intro hdel d q p hp
    have hnr := routeLoop_reply_nodelay env node.normal node.shadowPolicy ctx req
      hdel node.shadowData none none
    have hroute : (route env node ctx req).2
        = (routeLoop env node.normal node.shadowPolicy ctx req
            node.shadowData none none).2.2
          ++ [Event.primaryCall ((routeLoop env node.normal node.shadowPolicy ctx
              req node.shadowData none none).1.getD req)] := by
      simp only [route, hnr]
    rw [hroute] at hp
    simp only [List.mem_append, List.mem_singleton] at hp
    rcases hp with hp | hp
    · exact routeLoop_nodelay_dispatch env node.normal node.shadowPolicy ctx req
        hdel node.shadowData none none d q p hp
    · simp at hp

/-- The trace route returns is the loop trace, possibly followed by one final
primary call; events other than primary calls are counted identically. -/
theorem route_countP_of_primary_false {ρ : Type} (env : Nat → Req → ρ)
    (node : ShadowRoute ρ) (ctx : Bool) (req : Req) (P : Event ρ → Bool)
    (hP : ∀ qq, P (Event.primaryCall qq) = false) :
    (route env node ctx req).2.countP P
      = (routeLoop env node.normal node.shadowPolicy ctx req
          node.shadowData none none).2.2.countP P := by
  simp only [route]
  cases hr : (routeLoop env node.normal node.shadowPolicy ctx req
      node.shadowData none none).2.1 <;>
    simp [List.countP_append, List.countP_cons, hP]

theorem route_mem_elim {ρ : Type} (env : Nat → Req → ρ) (node : ShadowRoute ρ)
    (ctx : Bool) (req : Req) (e : Event ρ)
    (he : e ∈ (route env node ctx req).2) :
    e ∈ (routeLoop env node.normal node.shadowPolicy ctx req
        node.shadowData none none).2.2
      ∨ ∃ qq, e = Event.primaryCall qq := by
  simp only [route] at he
  cases hr : (routeLoop env node.normal node.shadowPolicy ctx req
      node.shadowData none none).2.1 with
  | some r =>
    rw [hr] at he
    exact Or.inl he
  | none =>
    rw [hr] at he
    simp only [List.mem_append, List.mem_singleton] at he
    rcases he with he | he
    · exact Or.inl he
    · exact Or.inr ⟨_, he⟩

/-- The reply route returns is always the primary reply for the adjusted
request when some entry fired and for the original request otherwise. -/
theorem route_result_eq {ρ : Type} (env : Nat → Req → ρ) (node : ShadowRoute ρ)
    (ctx : Bool) (req : Req) :
    (route env node ctx req).1
      = env node.normal
          (if anyFired node req then
            node.shadowPolicy.makeAdjustedNormalRequest req
          else req) := by
  have hadj := routeLoop_adjusted_none env node.normal node.shadowPolicy ctx req
    node.shadowData (none : Option ρ)
  cases hfired : node.shadowData.any (firedEntry req) with
  | false =>
    rw [hfired] at hadj
    simp only [if_neg (by simp : ¬ (false = true))] at hadj
    have hnr : (routeLoop env node.normal node.shadowPolicy ctx req
        node.shadowData none none).2.1 = none := by
      cases hdel : node.shadowPolicy.shouldDelayShadow with
      | false =>
        exact routeLoop_reply_nodelay env node.normal node.shadowPolicy ctx req
          hdel node.shadowData none none
      | true =>
        have h := routeLoop_reply_delay env node.normal node.shadowPolicy ctx req
          hdel node.shadowData none
        rw [hfired] at h
        simpa using h
    simp only [route, hnr, hadj, anyFired, hfired]
    simp
  | true =>
    rw [hfired] at hadj
    simp only [if_pos rfl] at hadj
    cases hdel : node.shadowPolicy.shouldDelayShadow with
    | false =>
      have hnr := routeLoop_reply_nodelay env node.normal node.shadowPolicy ctx req
        hdel node.shadowData none none
      simp only [route, hnr, hadj, anyFired, hfired]
      simp
    | true =>
      have hnr := routeLoop_reply_delay env node.normal node.shadowPolicy ctx req
        hdel node.shadowData none
      rw [hfired] at hnr
      simp at hnr
      simp only [route, hnr, anyFired, hfired]
      simp

/-- Concrete node for the C5 counterexample: one shadow entry with a null
destination handle whose settings make the request ineligible. -/
def exNode5 : ShadowRoute Nat :=
  { normal := 0,
    shadowData := [(none, some { keysToShadow := [], keyRange := (0, 5) })],
    shadowPolicy :=
      { makeAdjustedNormalRequest := fun q => q,
        shouldDelayShadow := false,
        makeShadowRequest := fun q => q } }

/-- Concrete request for the C5 counterexample: hash 10, outside [0, 5]. -/
def exReq5 : Req := { routingKeyHash := 10, routingKey := [107], payload := 0 }

/-- Counterexample to claim C5 as stated: a null-destination shadow entry
whose entry is not eligible produces no configuration-failure report at all,
although the claim demands exactly one report for every null-destination
entry. -/
theorem route_nullDest_report_counterexample :
    (∃ e ∈ exNode5.shadowData, e.1 = none)
      ∧ (route (fun _ _ => 7) exNode5 true exReq5).2.countP isLogFailure = 0 := by
  decide

/-- Claim C5 as amended: a null settings handle makes shouldShadow report one
configuration failure (context available) and return false; route emits
exactly one null-handle report per null-destination entry that is eligible
(context available), skips those entries, keeps processing, and still returns
the primary reply. -/
theorem route_config_failure_isolated {ρ : Type} (env : Nat → Req → ρ)
    (node : ShadowRoute ρ) (req : Req) :
    ((shouldShadow true req none).1 = false
        ∧ (shouldShadow true req none).2 = [kSettingsNullMsg])
      ∧ ((route env node true req).2.countP isNullHandleLog
          = node.shadowData.countP
              (fun e => (shouldShadow true req e.2).1 && e.1.isNone))
      ∧ ((route env node true req).1
          = env node.normal
              (if anyFired node req then
                node.shadowPolicy.makeAdjustedNormalRequest req
              else req)) := by
  refine ⟨⟨rfl, rfl⟩, ?_, route_result_eq env node true req⟩
  rw [route_countP_of_primary_false env node true req isNullHandleLog
    (fun qq => rfl)]
  have h := routeLoop_nullhandle_count env node.normal node.shadowPolicy true req
    node.shadowData none none
  simpa using h

/-- Claim C6: request adjustment is lazy and at-most-once.  With zero shadow
entries route is a pure pass-through; when some entry fires the adjustment is
computed exactly once and its result is reused for every shadow request and
for the primary call; when no entry fires the adjustment is never computed
and the original request reaches the primary destination. -/
theorem route_adjustment_lazy {ρ : Type} (env : Nat → Req → ρ)
    (node : ShadowRoute ρ) (ctx : Bool) (req : Req) :
    (node.shadowData = [] →
        route env node ctx req = (env node.normal req, [Event.primaryCall req]))
      ∧ (anyFired node req = true →
          ((route env node ctx req).2.countP isAdjust = 1
            ∧ (∀ d q p, Event.dispatch d q p ∈ (route env node ctx req).2 →
                q = node.shadowPolicy.makeShadowRequest
                      (node.shadowPolicy.makeAdjustedNormalRequest req))
            ∧ (∀ qq, Event.primaryCall qq ∈ (route env node ctx req).2 →
                qq = node.shadowPolicy.makeAdjustedNormalRequest req)))
      ∧ (anyFired node req = false →
          ((route env node ctx req).2.countP isAdjust = 0
            ∧ (route env node ctx req).1 = env node.normal req
            ∧ Event.primaryCall req ∈ (route env node ctx req).2)) := by
  refine ⟨?_, ?_, ?_⟩
  · intro h
    simp [route, h, routeLoop]
  · intro hf
    simp only [anyFired] at hf
    refine ⟨?_, ?_, ?_⟩
    · rw [route_countP_of_primary_false env node ctx req isAdjust (fun qq => rfl)]
      have h := routeLoop_adjust_count env node.normal node.shadowPolicy ctx req
        node.shadowData none none
      rw [hf] at h
      simpa using h
    · intro d q p hp
      rcases route_mem_elim env node ctx req _ hp with hm | ⟨qq, hqq⟩
      · have := routeLoop_dispatch_req env node.normal node.shadowPolicy ctx req
          node.shadowData none none d q p hm
        simpa using this
      · simp at hqq
    · intro qq hq
      have hadj := routeLoop_adjusted_none env node.normal node.shadowPolicy ctx req
        node.shadowData (none : Option ρ)
      rw [hf] at hadj
      simp only [if_pos rfl] at hadj
      simp only [route] at hq
      cases hr : (routeLoop env node.normal node.shadowPolicy ctx req
          node.shadowData none none).2.1 with
      | some r =>
        rw [hr] at hq
        have := routeLoop_primary_arg env node.normal node.shadowPolicy ctx req
          node.shadowData none none qq hq
        simpa using this
      | none =>
        rw [hr] at hq
        simp only [List.mem_append, List.mem_singleton] at hq
        rcases hq with hq | hq
        · have := routeLoop_primary_arg env node.normal node.shadowPolicy ctx req
            node.shadowData none none qq hq
          simpa using this
        · have := (Event.primaryCall.injEq _ _).mp hq
          rw [this, hadj]
          simp
  · intro hf
    simp only [anyFired] at hf
    have hadj := routeLoop_adjusted_none env node.normal node.shadowPolicy ctx req
      node.shadowData (none : Option ρ)
    rw [hf] at hadj
    simp only [if_neg (by simp : ¬ (false = true))] at hadj
    have hnr : (routeLoop env node.normal node.shadowPolicy ctx req
        node.shadowData none none).2.1 = none := by
      cases hdel : node.shadowPolicy.shouldDelayShadow with
      | false =>
        exact routeLoop_reply_nodelay env node.normal node.shadowPolicy ctx req
          hdel node.shadowData none none
      | true =>
        have h := routeLoop_reply_delay env node.normal node.shadowPolicy ctx req
          hdel node.shadowData none
        rw [hf] at h
        simpa using h
    refine ⟨?_, ?_, ?_⟩
    · rw [route_countP_of_primary_false env node ctx req isAdjust (fun qq => rfl)]
      have h := routeLoop_adjust_count env node.normal node.shadowPolicy ctx req
        node.shadowData none none
      rw [hf] at h
      simpa using h
    · have := route_result_eq env node ctx req
      rw [this]
      simp [anyFired, hf]
    · simp only [route, hnr, hadj]
      simp

/-- Claim C9: failure reports are gated on the shared request context from
the fiber-local state.  Without it, route behaves identically except that the
trace carries no failure report at all; with it, a null-handle report is
emitted exactly for the null-destination entries that are eligible, so an
ineligible null-destination entry is skipped silently. -/
theorem route_reports_need_ctx {ρ : Type} (env : Nat → Req → ρ)
    (node : ShadowRoute ρ) (req : Req) :
    ((route env node false req).1 = (route env node true req).1
        ∧ (route env node false req).2
            = (route env node true req).2.filter (fun e => !(isLogFailure e)))
      ∧ (route env node false req).2.countP isLogFailure = 0
      ∧ shouldShadow false req none = (false, [])
      ∧ ((route env node true req).2.countP isNullHandleLog
          = node.shadowData.countP
              (fun e => (shouldShadow true req e.2).1 && e.1.isNone)) := by
  have hfil := routeLoop_ctx_false_filter env node.normal node.shadowPolicy req
    node.shadowData none none
  have hpair : ((route env node false req).1 = (route env node true req).1
      ∧ (route env node false req).2
          = (route env node true req).2.filter (fun e => !(isLogFailure e))) := by
    simp only [route, hfil]
    cases hr : (routeLoop env node.normal node.shadowPolicy true req
        node.shadowData none none).2.1 with
    | some r => simp
    | none =>
      simp [List.filter_append, List.filter_cons, isLogFailure]
  refine ⟨hpair, ?_, rfl, ?_⟩
  · rw [hpair.2]
    refine List.countP_eq_zero.mpr ?_
    intro e he
    have := (List.mem_filter.mp he).2
    simp only [Bool.not_eq_eq_eq_not, Bool.not_true] at this
    simp [this]
  · rw [route_countP_of_primary_false env node true req isNullHandleLog
      (fun qq => rfl)]
    have h := routeLoop_nullhandle_count env node.normal node.shadowPolicy true req
      node.shadowData none none
    simpa using h

/-- The shadow loop of traverse fails (dereferences a null handle) as soon as
the shadow data contains a null destination handle. -/
theorem traverseShadows_null (tag : Bool) (req : Req) :
    ∀ (l : List (Option Nat × Option ShadowSettings)),
      (∃ e ∈ l, e.1 = none) → traverseShadows tag req l = none := by
  intro l
  induction l with
  | nil => intro h; simp at h
  | cons entry rest ih =>
    intro h
    simp only [List.mem_cons] at h
    obtain ⟨e, he, hnone⟩ := h
    simp only [traverseShadows]
    rcases he with he | he
    · rw [← he] at *
      rw [hnone]
    · cases hd : entry.1 with
      | none => rfl
      | some d => rw [ih ⟨e, he, hnone⟩]; rfl

/-- The shadow loop of traverse on all-non-null shadow data: visits every
destination once, in order, with the given request and tag. -/
theorem traverseShadows_all_some (tag : Bool) (req : Req) :
    ∀ (l : List (Option Nat × Option ShadowSettings)),
      (∀ e ∈ l, e.1.isSome = true) →
        ∃ vs, traverseShadows tag req l = some vs
          ∧ vs.map (fun v => some v.dest) = l.map (fun e => e.1)
          ∧ ∀ v ∈ vs, v.req = req ∧ v.shadowTagged = tag := by
  intro l
  induction l with
  | nil => intro _; exact ⟨[], rfl, rfl, by simp⟩
  | cons entry rest ih =>
    intro h
    obtain ⟨vs, hvs, hmap, hall⟩ := ih (fun e he => h e (by simp [he]))
    have hhead := h entry (by simp)
    cases hd : entry.1 with
    | none => rw [hd] at hhead; simp at hhead
    | some d =>
      refine ⟨{ dest := d, req := req, shadowTagged := tag } :: vs, ?_, ?_, ?_⟩
      · simp only [traverseShadows, hd, hvs]
        rfl
      · simp [hmap, hd]
      · intro v hv
        simp only [List.mem_cons] at hv
        rcases hv with hv | hv
        · rw [hv]; exact ⟨rfl, rfl⟩
        · exact hall v hv

/-- The shadow loop of traverse never consults the settings component. -/
theorem traverseShadows_settings_irrelevant (tag : Bool) (req : Req)
    (g : (Option Nat × Option ShadowSettings) → Option ShadowSettings) :
    ∀ (l : List (Option Nat × Option ShadowSettings)),
      traverseShadows tag req (l.map (fun e => (e.1, g e)))
        = traverseShadows tag req l := by
  intro l
  induction l with
  | nil => rfl
  | cons entry rest ih =>
    simp only [List.map_cons, traverseShadows]
    cases hd : entry.1 with
    | none => rfl
    | some d => rw [ih]

/-- Claim C7: traverse visits the primary destination exactly once and then
every configured shadow destination exactly once, in order, with the same
unmodified request; the shadow visits carry the dynamically scoped shadow
request class, which is restored to the ambient value when the step returns;
and traverse never consults ShadowSettings (or the policy): replacing them
arbitrarily leaves the traversal unchanged. -/
theorem traverse_spec {ρ : Type} (node : ShadowRoute ρ) (amb : Bool) (req : Req)
    (hnn : ∀ e ∈ node.shadowData, e.1.isSome = true) :
    (∃ vs, (node.traverse amb req).1
          = some ({ dest := node.normal, req := req, shadowTagged := amb } :: vs)
        ∧ vs.map (fun v => some v.dest) = node.shadowData.map (fun e => e.1)
        ∧ ∀ v ∈ vs, v.req = req ∧ v.shadowTagged = true)
      ∧ (node.traverse amb req).2 = amb
      ∧ (∀ (g : (Option Nat × Option ShadowSettings) → Option ShadowSettings)
            (p2 : ShadowPolicy ρ),
          (ShadowRoute.traverse (ShadowRoute.mk node.normal
              (node.shadowData.map (fun e => (e.1, g e))) p2) amb req).1
            = (node.traverse amb req).1) := by
  obtain ⟨vs, hvs, hmap, hall⟩ :=
    traverseShadows_all_some true req node.shadowData hnn
  refine ⟨⟨vs, ?_, hmap, hall⟩, rfl, ?_⟩
  · simp [ShadowRoute.traverse, runWithLocals, hvs]
  · intro g p2
    simp [ShadowRoute.traverse, runWithLocals, traverseShadows_settings_irrelevant]

/-- Claim C10: traverse dereferences every shadow destination handle with no
null check: on a node with a null shadow destination handle the shadow walk
dereferences the null handle (modelled as the none outcome), while route on
the same node detects the entry, skips it, and still returns the primary
reply. -/
theorem traverse_null_handle_deref {ρ : Type} (env : Nat → Req → ρ)
    (node : ShadowRoute ρ) (ctx : Bool) (amb : Bool) (req : Req)
    (h : ∃ e ∈ node.shadowData, e.1 = none) :
    (node.traverse amb req).1 = none
      ∧ (route env node ctx req).1
          = env node.normal
              (if anyFired node req then
                node.shadowPolicy.makeAdjustedNormalRequest req
              else req) := by
  constructor
  · simp [ShadowRoute.traverse, runWithLocals, traverseShadows_null true req node.shadowData h]
  · exact route_result_eq env node ctx req

/-- Claim C8 (dispatch modelled from the spec): handing shadow requests to the
dispatcher never feeds anything back into the primary path.  The reply route
returns is unchanged under any change of the shadow destinations behaviour
(env off the primary handle) and of the dispatched task outcomes (success,
failure, or never completing). -/
theorem dispatch_isolated {ρ : Type} (env1 env2 : Nat → Req → ρ)
    (b1 b2 : Nat → Req → Option ρ) (node : ShadowRoute ρ) (ctx : Bool)
    (req : Req) (h : env1 node.normal = env2 node.normal) :
    (routeWithShadows env1 b1 node ctx req).1
      = (routeWithShadows env2 b2 node ctx req).1 := by
  have hloop := routeLoop_env_eq env1 env2 node.normal node.shadowPolicy ctx req
    h node.shadowData none none
  simp only [routeWithShadows, route, hloop]
  cases hr : (routeLoop env2 node.normal node.shadowPolicy ctx req
      node.shadowData none none).2.1 with
  | some r => rfl
  | none => simp [h]

/-! ### Concrete witnesses -/

def wEnv4 : Nat → Req → Nat := fun _ q => q.payload

def wReq4 : Req := { routingKeyHash := 3, routingKey := [1], payload := 100 }

def wNode4 : ShadowRoute Nat :=
  { normal := 0,
    shadowData := [(some 7, some { keysToShadow := [], keyRange := (0, 5) })],
    shadowPolicy :=
      { makeAdjustedNormalRequest := fun q => { q with payload := q.payload + 1 },
        shouldDelayShadow := true,
        makeShadowRequest := fun q => { q with payload := q.payload + 10 } } }

/-- Witness for C4 on a delaying policy with one firing entry. -/
theorem route_delay_primary_first_witness :
    wNode4.shadowPolicy.shouldDelayShadow = true
      ∧ (route wEnv4 wNode4 true wReq4).2.countP isPrimaryCall = 1 := by
  have h := route_delay_primary_first wEnv4 wNode4 true wReq4
  exact ⟨rfl, (h.1 rfl).1⟩

def wEnv6 : Nat → Req → Nat := fun _ q => q.payload

def wReq6 : Req := { routingKeyHash := 3, routingKey := [2], payload := 50 }

def wNode6 : ShadowRoute Nat :=
  { normal := 0,
    shadowData := [(some 9, some { keysToShadow := [], keyRange := (0, 5) })],
    shadowPolicy :=
      { makeAdjustedNormalRequest := fun q => { q with payload := q.payload + 1 },
        shouldDelayShadow := false,
        makeShadowRequest := fun q => q } }

/-- Witness for C6 on a node whose single entry fires. -/
theorem route_adjustment_lazy_witness :
    (route wEnv6 wNode6 true wReq6).2.countP isAdjust = 1 := by
  have h := route_adjustment_lazy wEnv6 wNode6 true wReq6
  exact (h.2.1 (by decide)).1

def wReq7 : Req := { routingKeyHash := 1, routingKey := [3], payload := 0 }

def wNode7 : ShadowRoute Nat :=
  { normal := 0,
    shadowData := [(some 5, some { keysToShadow := [], keyRange := (7, 7) }),
      (some 6, none)],
    shadowPolicy :=
      { makeAdjustedNormalRequest := fun q => q,
        shouldDelayShadow := false,
        makeShadowRequest := fun q => q } }

/-- Witness for C7 on a node with two non-null shadow handles (one of them
with a null settings handle, which traverse ignores). -/
theorem traverse_spec_witness :
    (wNode7.traverse false wReq7).2 = false
      ∧ (ShadowRoute.traverse (ShadowRoute.mk wNode7.normal
            (wNode7.shadowData.map (fun e => (e.1, (fun _ => none) e)))
            wNode7.shadowPolicy) false wReq7).1
          = (wNode7.traverse false wReq7).1 := by
  have h := traverse_spec wNode7 false wReq7 (by decide)
  exact ⟨h.2.1, h.2.2 (fun _ => none) wNode7.shadowPolicy⟩

def wEnv8a : Nat → Req → Nat := fun i q => if i = 0 then q.payload else 5

def wEnv8b : Nat → Req → Nat := fun i q => if i = 0 then q.payload else 77

def wB8a : Nat → Req → Option Nat := fun _ _ => none

def wB8b : Nat → Req → Option Nat := fun _ q => some q.payload

def wReq8 : Req := { routingKeyHash := 2, routingKey := [9], payload := 42 }

def wNode8 : ShadowRoute Nat :=
  { normal := 0,
    shadowData := [(some 7, some { keysToShadow := [], keyRange := (0, 5) })],
    shadowPolicy :=
      { makeAdjustedNormalRequest := fun q => q,
        shouldDelayShadow := false,
        makeShadowRequest := fun q => q } }

/-- Witness for C8: two environments that agree on the primary handle but
give the shadow destination different behaviours, and two opposite dispatch
outcomes (never completes versus succeeds); route returns the same reply. -/
theorem dispatch_isolated_witness :
    (routeWithShadows wEnv8a wB8a wNode8 true wReq8).1
      = (routeWithShadows wEnv8b wB8b wNode8 true wReq8).1 :=
  dispatch_isolated wEnv8a wEnv8b wB8a wB8b wNode8 true wReq8 (by funext q; rfl)

def wEnv10 : Nat → Req → Nat := fun _ q => q.payload

def wReq10 : Req := { routingKeyHash := 4, routingKey := [8], payload := 13 }

def wNode10 : ShadowRoute Nat :=
  { normal := 0,
    shadowData := [(none, some { keysToShadow := [], keyRange := (0, 100) })],
    shadowPolicy :=
      { makeAdjustedNormalRequest := fun q => q,
        shouldDelayShadow := false,
        makeShadowRequest := fun q => q } }

/-- Witness for C10 on a node with one null shadow destination handle. -/
theorem traverse_null_handle_deref_witness :
    (wNode10.traverse false wReq10).1 = none
      ∧ (route wEnv10 wNode10 true wReq10).1
          = wEnv10 wNode10.normal
              (if anyFired wNode10 wReq10 then
                wNode10.shadowPolicy.makeAdjustedNormalRequest wReq10
              else wReq10) := by
  have h := traverse_null_handle_deref wEnv10 wNode10 true false wReq10 (by decide)
  exact ⟨h.1, h.2⟩
